import Mathlib

/-!
Verification of the SCSI attachment/mount/unplug subsystem (package `scsi`):
`Mount`, `ControllerLunToName` and `UnplugDevice`.

The kernel-facing effects (directory listing under
`/sys/bus/scsi/devices/<id>/block`, the `mount(2)` call, opening and writing
the `delete` control file) are modelled by an environment record giving the
result of each such operation; the unbounded retry loops are modelled with a
fuel parameter (`none` = the loop is still running after `fuel` iterations).
Each operation additionally returns an account of the effects it performed
(number of directory reads, the list of sleep durations, the ordered list of
filesystem actions), so that claims about "no extra poll", "no sleep" and
"rollback removal" are statable.
-/

namespace Scsi

/-- A Go `error` value, as far as the code inspects it: the code only ever
asks `os.IsNotExist(err)` and otherwise propagates the value unmodified. -/
structure GoError where
  isNotExist : Bool
  msg : String
deriving DecidableEq, Repr

/-- Result of one `ioutil.ReadDir(blockPath)` call.  On error Go's `ReadDir`
returns a nil entry slice, so the error constructor carries no entries. -/
inductive ReadDirResult where
  | ok (entries : List String)
  | err (e : GoError)
deriving DecidableEq, Repr

/-- Environment for `ControllerLunToName`: the result of the `i`-th directory
read, whether the context's `Done` channel is closed when the `select` at the
`i`-th iteration runs, and the value `ctx.Err()` returns. -/
structure ResolveEnv where
  reads : Nat → ReadDirResult
  ctxDoneAt : Nat → Bool
  ctxErr : GoError

/-- A read result that sends the loop into its retry branch: either the
listing read succeeded but is empty, or the path does not exist yet
(`os.IsNotExist(err)`), in which case the entry slice is nil hence empty. -/
def retryableRead : ReadDirResult → Bool
  | .ok entries => entries.length == 0
  | .err e => e.isNotExist

/-- How the polling loop of `ControllerLunToName` exits. -/
inductive ResolveExit where
  | readErr (e : GoError)
  | ctxDone
  | entriesFound (entries : List String)
deriving DecidableEq, Repr

/-- The `for` loop of `ControllerLunToName` (source lines 101-116), starting
at iteration `i` with `fuel` iterations allowed.  Returns the exit, the index
of the iteration that exited (so `index + 1 - i` reads were performed), and
the list of sleep durations (in milliseconds) executed, in order. -/
def resolveLoop (env : ResolveEnv) (i : Nat) : Nat → Option (ResolveExit × Nat × List Nat)
  | 0 => none
  | fuel + 1 =>
    match env.reads i with
    | .err e =>
      if e.isNotExist then
        -- entry slice is nil, so `len(deviceNames) == 0` holds: retry branch
        if env.ctxDoneAt i then some (.ctxDone, i, [])
        else (resolveLoop env (i + 1) fuel).map fun r => (r.1, r.2.1, 10 :: r.2.2)
      else some (.readErr e, i, [])
    | .ok entries =>
      if entries.length == 0 then
        if env.ctxDoneAt i then some (.ctxDone, i, [])
        else (resolveLoop env (i + 1) fuel).map fun r => (r.1, r.2.1, 10 :: r.2.2)
      else some (.entriesFound entries, i, [])

/-- Result of `ControllerLunToName`. -/
inductive ResolveResult where
  | ok (path : String)
  | readErr (e : GoError)
  | ctxErr (e : GoError)
  | noMatch (scsiID : String)
  | ambiguous (scsiID : String)
deriving DecidableEq, Repr

/-- `fmt.Sprintf("0:0:%d:%d", controller, lun)`. -/
def scsiIDString (controller lun : Nat) : String :=
  "0:0:" ++ toString controller ++ ":" ++ toString lun

/-- `ControllerLunToName` (source lines 86-128).  Returns the result, the
number of directory reads performed, and the list of sleep durations. -/
def ControllerLunToName (env : ResolveEnv) (controller lun : Nat) (fuel : Nat) :
    Option (ResolveResult × Nat × List Nat) :=
  match resolveLoop env 0 fuel with
  | none => none
  | some (.readErr e, i, sleeps) => some (.readErr e, i + 1, sleeps)
  | some (.ctxDone, i, sleeps) => some (.ctxErr env.ctxErr, i + 1, sleeps)
  | some (.entriesFound entries, i, sleeps) =>
    if entries.length == 0 then some (.noMatch (scsiIDString controller lun), i + 1, sleeps)
    else if entries.length > 1 then
      some (.ambiguous (scsiIDString controller lun), i + 1, sleeps)
    else some (.ok ("/dev/" ++ entries.headD ""), i + 1, sleeps)

/-- The errno of a failed `unix.Mount` call.  The code only ever compares the
error against `unix.ENOENT` and otherwise propagates it. -/
inductive Errno where
  | ENOENT
  | other (code : Nat)
deriving DecidableEq, Repr

/-- `unix.MS_RDONLY`. -/
def MS_RDONLY : Nat := 1

/-- A side effect performed by `Mount`, in source order. -/
inductive FsAction where
  | mkdirAll (path : String) (perm : Nat)
  | removeAll (path : String)
  | mountCall (source target fstype : String) (flags : Nat) (data : String)
  | sleep (ms : Nat)
deriving DecidableEq, Repr

/-- Environment for `Mount`: the result of `osMkdirAll` (`none` = success),
the result of the `controllerLunToName` call (the code routes it through an
injectable variable, so it is modelled as a single environment-given
outcome), the errno of the `i`-th `unixMount` attempt (`none` = success),
and the cancellation context as seen by the mount retry loop.
`targetPreexisted` records whether `target` already existed before the call;
the code never consults it (`os.MkdirAll` succeeds on an existing directory
and the rollback never checks it). -/
structure MountEnv where
  mkdirResult : Option GoError
  resolveResult : Except GoError String
  mounts : Nat → Option Errno
  ctxDoneAt : Nat → Bool
  ctxErr : GoError
  targetPreexisted : Bool

/-- How the mount retry loop exits. -/
inductive MountExit where
  | success
  | mountErr (e : Errno)
  | ctxDone
deriving DecidableEq, Repr

/-- The mount parameters computed at source lines 56-61: `readonly` adds
`MS_RDONLY` to the (initially zero) flags. -/
def mountFlags (readonly : Bool) : Nat :=
  if readonly then MS_RDONLY else 0

/-- The `data` option string computed at source lines 56-61. -/
def mountData (readonly : Bool) : String :=
  if readonly then "noload" else ""

/-- The mount retry `for` loop of `Mount` (source lines 63-80), starting at
attempt `i` with `fuel` attempts allowed.  Returns the exit and the ordered
list of actions (mount calls and sleeps) the loop performed. -/
def mountLoop (env : MountEnv) (source target : String) (flags : Nat) (data : String)
    (i : Nat) : Nat → Option (MountExit × List FsAction)
  | 0 => none
  | fuel + 1 =>
    let call := FsAction.mountCall source target "ext4" flags data
    match env.mounts i with
    | none => some (.success, [call])
    | some .ENOENT =>
      if env.ctxDoneAt i then some (.ctxDone, [call])
      else (mountLoop env source target flags data (i + 1) fuel).map
        fun r => (r.1, call :: FsAction.sleep 10 :: r.2)
    | some (.other c) => some (.mountErr (.other c), [call])

/-- Result of `Mount`. -/
inductive MountResult where
  | ok
  | mkdirErr (e : GoError)
  | resolveErr (e : GoError)
  | mountErr (e : Errno)
  | ctxErr (e : GoError)
deriving DecidableEq, Repr

/-- `Mount` (source lines 35-82).  Returns the result and the ordered list of
filesystem actions performed.  The deferred rollback (lines 47-51) runs
last, after the loop, whenever the returned error is non-nil; it is only
registered once `osMkdirAll` has succeeded. -/
def Mount (env : MountEnv) (controller lun : Nat) (target : String) (readonly : Bool)
    (fuel : Nat) : Option (MountResult × List FsAction) :=
  match env.mkdirResult with
  | some e => some (.mkdirErr e, [.mkdirAll target 0o700])
  | none =>
    match env.resolveResult with
    | .error e => some (.resolveErr e, [.mkdirAll target 0o700, .removeAll target])
    | .ok source =>
      match mountLoop env source target (mountFlags readonly) (mountData readonly) 0 fuel with
      | none => none
      | some (.success, tr) => some (.ok, .mkdirAll target 0o700 :: tr)
      | some (.mountErr e, tr) =>
        some (.mountErr e, .mkdirAll target 0o700 :: (tr ++ [.removeAll target]))
      | some (.ctxDone, tr) =>
        some (.ctxErr env.ctxErr, .mkdirAll target 0o700 :: (tr ++ [.removeAll target]))

/-- A Go `context.Context`, as far as these operations can observe it:
whether `Done` is closed and what `Err()` returns. -/
structure Context where
  done : Bool
  err : GoError

/-- Environment for `UnplugDevice`: the result of opening the `delete`
control file, of writing `"1\n"` to it, and of `ioutil.WriteFile` on
`/dev/kmsg` (`none` = success). -/
structure UnplugEnv where
  openDelete : Except GoError Unit
  writeDelete : Option GoError
  writeKmsg : Option GoError

/-- A side effect performed by `UnplugDevice`, in source order. -/
inductive UnplugAction where
  | openFile (path : String)
  | write (payload : String)
  | writeKmsgFile
deriving DecidableEq, Repr

/-- Whether an action is a write of the trigger payload to the control
file (used to count write attempts). -/
def isWriteAction : UnplugAction → Bool
  | .write _ => true
  | _ => false

/-- Result of `UnplugDevice`. -/
inductive UnplugResult where
  | ok
  | openErr (e : GoError)
  | writeErr (e : GoError)
  | kmsgErr (e : GoError)
deriving DecidableEq, Repr

/-- `UnplugDevice` (source lines 134-166).  The context argument is used
only for the tracing span and the logger, neither of which affects the
result, so the definition receives `ctx` but never inspects it.  Returns
the result and the ordered list of actions performed. -/
def UnplugDevice (ctx : Context) (env : UnplugEnv) (controller lun : Nat) :
    UnplugResult × List UnplugAction :=
  let deletePath := "/sys/bus/scsi/devices/" ++ scsiIDString controller lun ++ "/delete"
  match env.openDelete with
  | .error e =>
    if e.isNotExist then (.ok, [.openFile deletePath])
    else (.openErr e, [.openFile deletePath])
  | .ok _ =>
    match env.writeDelete with
    | some e => (.writeErr e, [.openFile deletePath, .write "1\n"])
    | none =>
      match env.writeKmsg with
      | some e => (.kmsgErr e, [.openFile deletePath, .write "1\n", .writeKmsgFile])
      | none => (.ok, [.openFile deletePath, .write "1\n", .writeKmsgFile])

/-! ## Helper lemmas -/

/-- A run of `k` retryable reads (empty listing or not-yet-existing path)
with the context never done turns into `k` sleeps of 10 ms prepended to
whatever the loop does from iteration `i + k` on. -/
theorem resolveLoop_retry_steps (env : ResolveEnv) (k : Nat) :
    ∀ i fuel : Nat,
      (∀ j, j < k → retryableRead (env.reads (i + j)) = true ∧ env.ctxDoneAt (i + j) = false) →
      resolveLoop env i (k + fuel) =
        (resolveLoop env (i + k) fuel).map
          fun r => (r.1, r.2.1, List.replicate k 10 ++ r.2.2) := by
  induction k with
  | zero =>
    intro i fuel _
    simp only [Nat.zero_add, Nat.add_zero, List.replicate, List.nil_append]
    cases resolveLoop env i fuel with
    | none => rfl
    | some r => rfl
  | succ k ih =>
    intro i fuel h
    have h0 : retryableRead (env.reads i) = true ∧ env.ctxDoneAt i = false := by
      simpa using h 0 (Nat.succ_pos k)
    have hrest : ∀ j, j < k →
        retryableRead (env.reads (i + 1 + j)) = true ∧ env.ctxDoneAt (i + 1 + j) = false := by
      intro j hj
      have := h (j + 1) (Nat.succ_lt_succ hj)
      have harith : i + (j + 1) = i + 1 + j := by omega
      rw [harith] at this
      exact this
    have step : resolveLoop env i (k + 1 + fuel) =
        (resolveLoop env (i + 1) (k + fuel)).map fun r => (r.1, r.2.1, 10 :: r.2.2) := by
      have harith : k + 1 + fuel = (k + fuel) + 1 := by omega
      rw [harith]
      cases hr : env.reads i with
      | err e =>
        have he : e.isNotExist = true := by simpa [retryableRead, hr] using h0.1
        simp [resolveLoop, hr, he, h0.2]
      | ok entries =>
        have he : (entries.length == 0) = true := by simpa [retryableRead, hr] using h0.1
        simp only [resolveLoop, hr, he, if_true, h0.2, if_false, Bool.false_eq_true]
    rw [step, ih (i + 1) fuel hrest]
    have harith : i + 1 + k = i + (k + 1) := by omega
    rw [harith]
    cases resolveLoop env (i + (k + 1)) fuel with
    | none => rfl
    | some r => simp [List.replicate_succ]

/-- A read returning a nonempty listing exits the loop at that iteration
with no further reads and no sleep. -/
theorem resolveLoop_exit_found (env : ResolveEnv) (i fuel : Nat) (entries : List String)
    (hr : env.reads i = .ok entries) (hne : entries.length ≠ 0) :
    resolveLoop env i (fuel + 1) = some (.entriesFound entries, i, []) := by
  have he : (entries.length == 0) = false := by simpa using hne
  simp [resolveLoop, hr, he]

/-! ## Claim theorems: DeviceResolver -/

/-- C2: if the topology listing under the address's `block` directory
contains exactly one entry `E` on the first read, `ControllerLunToName`
returns `/dev/E` with no error, having performed exactly one read and no
sleep (hence no additional poll attempt). -/
theorem resolve_single_entry_first_read (env : ResolveEnv) (controller lun : Nat)
    (E : String) (fuel : Nat) (h : env.reads 0 = .ok [E]) :
    ControllerLunToName env controller lun (fuel + 1) =
      some (.ok ("/dev/" ++ E), 1, []) := by
  have hloop : resolveLoop env 0 (fuel + 1) = some (.entriesFound [E], 0, []) :=
    resolveLoop_exit_found env 0 fuel [E] h (by simp)
  simp [ControllerLunToName, hloop]

/-- C2 witness. -/
theorem resolve_single_entry_first_read_witness :
    ControllerLunToName ⟨fun _ => .ok ["sda"], fun _ => false, ⟨false, "ctx"⟩⟩ 0 0 1 =
      some (.ok ("/dev/" ++ "sda"), 1, []) :=
  resolve_single_entry_first_read ⟨fun _ => .ok ["sda"], fun _ => false, ⟨false, "ctx"⟩⟩
    0 0 "sda" 0 rfl

/-- C3: if, after `k` reads that found the listing absent or empty (with the
context never done), a read returns two or more entries, the function
returns the ambiguous-device error having performed exactly `k + 1` reads
(zero further poll attempts after that read) and exactly the `k` earlier
sleeps (no sleep before failing). -/
theorem resolve_ambiguous_immediate (env : ResolveEnv) (controller lun k fuel : Nat)
    (es : List String)
    (hpre : ∀ j, j < k → retryableRead (env.reads j) = true ∧ env.ctxDoneAt j = false)
    (hk : env.reads k = .ok es) (hlen : 2 ≤ es.length) :
    ControllerLunToName env controller lun (k + (fuel + 1)) =
      some (.ambiguous (scsiIDString controller lun), k + 1, List.replicate k 10) := by
  have hpre0 : ∀ j, j < k →
      retryableRead (env.reads (0 + j)) = true ∧ env.ctxDoneAt (0 + j) = false := by
    simpa using hpre
  have hsteps := resolveLoop_retry_steps env k 0 (fuel + 1) hpre0
  have hstep : resolveLoop env k (fuel + 1) = some (.entriesFound es, k, []) :=
    resolveLoop_exit_found env k fuel es hk (by omega)
  rw [Nat.zero_add] at hsteps
  rw [hstep] at hsteps
  have hlen0 : (es.length == 0) = false := by
    simp only [beq_eq_false_iff_ne, ne_eq]
    omega
  have hlen1 : es.length > 1 := by omega
  simp [ControllerLunToName, hsteps, hlen0, hlen1]

/-- C3 witness (with `k = 0`: the very first read is ambiguous). -/
theorem resolve_ambiguous_immediate_witness :
    ControllerLunToName ⟨fun _ => .ok ["sda", "sdb"], fun _ => false, ⟨false, "ctx"⟩⟩ 0 0 1 =
      some (.ambiguous (scsiIDString 0 0), 0 + 1, List.replicate 0 10) :=
  resolve_ambiguous_immediate ⟨fun _ => .ok ["sda", "sdb"], fun _ => false, ⟨false, "ctx"⟩⟩
    0 0 0 0 ["sda", "sdb"] (fun j hj => absurd hj (Nat.not_lt_zero j)) rfl (by simp)

/-- C9: if, after `k` retryable reads, a read fails with an error for which
`os.IsNotExist` does not hold, that error is returned unmodified, with
exactly `k + 1` reads (no retry after the failing read) and exactly the `k`
earlier sleeps (no sleep after the failing read). -/
theorem resolve_read_error_immediate (env : ResolveEnv) (controller lun k fuel : Nat)
    (e : GoError)
    (hpre : ∀ j, j < k → retryableRead (env.reads j) = true ∧ env.ctxDoneAt j = false)
    (hk : env.reads k = .err e) (hne : e.isNotExist = false) :
    ControllerLunToName env controller lun (k + (fuel + 1)) =
      some (.readErr e, k + 1, List.replicate k 10) := by
  have hpre0 : ∀ j, j < k →
      retryableRead (env.reads (0 + j)) = true ∧ env.ctxDoneAt (0 + j) = false := by
    simpa using hpre
  have hsteps := resolveLoop_retry_steps env k 0 (fuel + 1) hpre0
  have hstep : resolveLoop env k (fuel + 1) = some (.readErr e, k, []) := by
    simp [resolveLoop, hk, hne]
  rw [Nat.zero_add] at hsteps
  rw [hstep] at hsteps
  simp [ControllerLunToName, hsteps]

/-- C9 witness (with `k = 0`: the very first read fails with a permission
error). -/
theorem resolve_read_error_immediate_witness :
    ControllerLunToName
        ⟨fun _ => .err ⟨false, "permission denied"⟩, fun _ => false, ⟨false, "ctx"⟩⟩ 0 0 1 =
      some (.readErr ⟨false, "permission denied"⟩, 0 + 1, List.replicate 0 10) :=
  resolve_read_error_immediate
    ⟨fun _ => .err ⟨false, "permission denied"⟩, fun _ => false, ⟨false, "ctx"⟩⟩
    0 0 0 0 ⟨false, "permission denied"⟩ (fun j hj => absurd hj (Nat.not_lt_zero j)) rfl rfl

/-- C5: when a read finds the path absent or the listing empty, the context
is checked before any sleep: if the context is already done the function
returns the context's own error verbatim (with no new sleep, only the `k`
earlier ones); otherwise the loop sleeps exactly 10 ms and reads again.
The quantification over `k` (any number of prior retries) reflects that no
bound other than the context limits the number of retries. -/
theorem resolve_retry_checks_ctx (env : ResolveEnv) (controller lun k fuel : Nat)
    (hpre : ∀ j, j < k → retryableRead (env.reads j) = true ∧ env.ctxDoneAt j = false)
    (hk : retryableRead (env.reads k) = true) :
    (env.ctxDoneAt k = true →
       ControllerLunToName env controller lun (k + (fuel + 1)) =
         some (.ctxErr env.ctxErr, k + 1, List.replicate k 10)) ∧
    (env.ctxDoneAt k = false →
       resolveLoop env k (fuel + 1) =
         (resolveLoop env (k + 1) fuel).map fun r => (r.1, r.2.1, 10 :: r.2.2)) := by
  constructor
  · intro hdone
    have hpre0 : ∀ j, j < k →
        retryableRead (env.reads (0 + j)) = true ∧ env.ctxDoneAt (0 + j) = false := by
      simpa using hpre
    have hsteps := resolveLoop_retry_steps env k 0 (fuel + 1) hpre0
    have hstep : resolveLoop env k (fuel + 1) = some (.ctxDone, k, []) := by
      cases hr : env.reads k with
      | err e =>
        have he : e.isNotExist = true := by simpa [retryableRead, hr] using hk
        simp [resolveLoop, hr, he, hdone]
      | ok entries =>
        have he : (entries.length == 0) = true := by simpa [retryableRead, hr] using hk
        simp [resolveLoop, hr, he, hdone]
    rw [Nat.zero_add] at hsteps
    rw [hstep] at hsteps
    simp [ControllerLunToName, hsteps]
  · intro hnotdone
    cases hr : env.reads k with
    | err e =>
      have he : e.isNotExist = true := by simpa [retryableRead, hr] using hk
      simp [resolveLoop, hr, he, hnotdone]
    | ok entries =>
      have he : (entries.length == 0) = true := by simpa [retryableRead, hr] using hk
      simp only [resolveLoop, hr, he, if_true, hnotdone, Bool.false_eq_true, if_false]

/-- C5 witness (with `k = 0`: the first read finds nothing and the context
is already done). -/
theorem resolve_retry_checks_ctx_witness :
    ControllerLunToName ⟨fun _ => .ok [], fun _ => true, ⟨false, "context canceled"⟩⟩ 0 0 1 =
      some (.ctxErr ⟨false, "context canceled"⟩, 0 + 1, List.replicate 0 10) :=
  (resolve_retry_checks_ctx ⟨fun _ => .ok [], fun _ => true, ⟨false, "context canceled"⟩⟩
    0 0 0 0 (fun j hj => absurd hj (Nat.not_lt_zero j)) rfl).1 rfl

/-! ## Helper lemmas: mount loop -/

/-- The mount retry loop performs only mount calls and sleeps: it never
removes anything. -/
theorem mountLoop_no_removeAll (env : MountEnv) (source target : String)
    (flags : Nat) (data : String) :
    ∀ fuel i ex tr, mountLoop env source target flags data i fuel = some (ex, tr) →
      ∀ p, FsAction.removeAll p ∉ tr := by
  intro fuel
  induction fuel with
  | zero => intro i ex tr h p; rw [mountLoop] at h; exact Option.noConfusion h
  | succ fuel ih =>
    intro i ex tr h p
    rw [mountLoop] at h
    cases hm : env.mounts i with
    | none =>
      rw [hm] at h
      simp only [Option.some.injEq, Prod.mk.injEq] at h
      rw [← h.2]
      simp
    | some e =>
      cases e with
      | ENOENT =>
        rw [hm] at h
        by_cases hd : env.ctxDoneAt i
        · simp only [hd, if_true, Option.some.injEq, Prod.mk.injEq] at h
          rw [← h.2]
          simp
        · simp only [hd, if_false, Bool.false_eq_true] at h
          cases hrec : mountLoop env source target flags data (i + 1) fuel with
          | none => rw [hrec] at h; simp at h
          | some r =>
            rw [hrec] at h
            simp only [Option.map_some', Option.some.injEq, Prod.mk.injEq] at h
            rw [← h.2]
            have := ih (i + 1) r.1 r.2 (by rw [hrec]) p
            simp [this]
      | other c =>
        rw [hm] at h
        simp only [Option.some.injEq, Prod.mk.injEq] at h
        rw [← h.2]
        simp

/-- Every mount call the loop performs uses exactly the source, target,
fixed filesystem type "ext4", flags and data it was given. -/
theorem mountLoop_calls (env : MountEnv) (source target : String)
    (flags : Nat) (data : String) :
    ∀ fuel i ex tr, mountLoop env source target flags data i fuel = some (ex, tr) →
      ∀ s2 t2 fs2 f2 d2, FsAction.mountCall s2 t2 fs2 f2 d2 ∈ tr →
        s2 = source ∧ t2 = target ∧ fs2 = "ext4" ∧ f2 = flags ∧ d2 = data := by
  intro fuel
  induction fuel with
  | zero => intro i ex tr h; rw [mountLoop] at h; exact Option.noConfusion h
  | succ fuel ih =>
    intro i ex tr h s2 t2 fs2 f2 d2 hmem
    rw [mountLoop] at h
    cases hm : env.mounts i with
    | none =>
      rw [hm] at h
      simp only [Option.some.injEq, Prod.mk.injEq] at h
      rw [← h.2] at hmem
      simp only [List.mem_singleton, FsAction.mountCall.injEq] at hmem
      exact ⟨hmem.1, hmem.2.1, hmem.2.2.1, hmem.2.2.2.1, hmem.2.2.2.2⟩
    | some e =>
      cases e with
      | ENOENT =>
        rw [hm] at h
        by_cases hd : env.ctxDoneAt i
        · simp only [hd, if_true, Option.some.injEq, Prod.mk.injEq] at h
          rw [← h.2] at hmem
          simp only [List.mem_singleton, FsAction.mountCall.injEq] at hmem
          exact ⟨hmem.1, hmem.2.1, hmem.2.2.1, hmem.2.2.2.1, hmem.2.2.2.2⟩
        · simp only [hd, if_false, Bool.false_eq_true] at h
          cases hrec : mountLoop env source target flags data (i + 1) fuel with
          | none => rw [hrec] at h; simp at h
          | some r =>
            rw [hrec] at h
            simp only [Option.map_some', Option.some.injEq, Prod.mk.injEq] at h
            rw [← h.2] at hmem
            simp only [List.mem_cons, FsAction.mountCall.injEq] at hmem
            rcases hmem with hfirst | hsleep | hrest
            · exact ⟨hfirst.1, hfirst.2.1, hfirst.2.2.1, hfirst.2.2.2.1, hfirst.2.2.2.2⟩
            · exact absurd hsleep (by simp)
            · exact ih (i + 1) r.1 r.2 (by rw [hrec]) s2 t2 fs2 f2 d2 hrest
      | other c =>
        rw [hm] at h
        simp only [Option.some.injEq, Prod.mk.injEq] at h
        rw [← h.2] at hmem
        simp only [List.mem_singleton, FsAction.mountCall.injEq] at hmem
        exact ⟨hmem.1, hmem.2.1, hmem.2.2.1, hmem.2.2.2.1, hmem.2.2.2.2⟩

/-- The mount retry loop reads only the `mounts` and `ctxDoneAt` fields of
its environment: two environments agreeing on those behave identically (in
particular `targetPreexisted` is never consulted). -/
theorem mountLoop_only_mounts_ctx (envA envB : MountEnv)
    (hm : envA.mounts = envB.mounts) (hd : envA.ctxDoneAt = envB.ctxDoneAt)
    (source target : String) (flags : Nat) (data : String) :
    ∀ fuel i, mountLoop envA source target flags data i fuel =
      mountLoop envB source target flags data i fuel := by
  intro fuel
  induction fuel with
  | zero => intro i; rfl
  | succ fuel ih =>
    intro i
    cases he : envB.mounts i with
    | none => simp [mountLoop, hm, he]
    | some e =>
      cases e with
      | ENOENT =>
        by_cases hdi : envB.ctxDoneAt i <;> simp [mountLoop, hm, hd, he, hdi, ih]
      | other c => simp [mountLoop, hm, he]

/-! ## Claim theorems: MountManager -/

/-- C1: if the initial `os.MkdirAll` fails, `Mount` returns that error and
performs no removal; once creation has succeeded, every error return is
preceded by a recursive removal of `target`, while on success `target` is
not removed; and this is unconditional on whether `target` pre-existed:
flipping `targetPreexisted` changes neither the result nor the actions. -/
theorem mount_rollback_policy (env : MountEnv) (controller lun : Nat) (target : String)
    (readonly : Bool) (fuel : Nat) :
    (∀ e, env.mkdirResult = some e →
        Mount env controller lun target readonly fuel =
          some (.mkdirErr e, [.mkdirAll target 0o700]) ∧
        FsAction.removeAll target ∉ ([FsAction.mkdirAll target 0o700] : List FsAction)) ∧
    (env.mkdirResult = none →
        ∀ res tr, Mount env controller lun target readonly fuel = some (res, tr) →
          (res ≠ .ok → FsAction.removeAll target ∈ tr) ∧
          (res = .ok → FsAction.removeAll target ∉ tr)) ∧
    (∀ b, Mount { env with targetPreexisted := b } controller lun target readonly fuel =
        Mount env controller lun target readonly fuel) := by
  refine ⟨?_, ?_, ?_⟩
  · intro e he
    constructor
    · simp [Mount, he]
    · simp
  · intro hmk res tr h
    simp only [Mount, hmk] at h
    cases hres : env.resolveResult with
    | error e =>
      simp only [hres] at h
      simp only [Option.some.injEq, Prod.mk.injEq] at h
      constructor
      · intro _; rw [← h.2]; simp
      · intro hok; rw [← h.1] at hok; exact absurd hok (by simp)
    | ok source =>
      simp only [hres] at h
      cases hloop : mountLoop env source target (mountFlags readonly) (mountData readonly)
          0 fuel with
      | none => rw [hloop] at h; exact Option.noConfusion h
      | some r =>
        obtain ⟨ex, tr'⟩ := r
        rw [hloop] at h
        cases ex with
        | success =>
          simp only [Option.some.injEq, Prod.mk.injEq] at h
          constructor
          · intro hne; rw [← h.1] at hne; exact absurd rfl hne
          · intro _
            rw [← h.2]
            intro hmem
            rcases List.mem_cons.mp hmem with hhead | htail
            · exact FsAction.noConfusion hhead
            · exact mountLoop_no_removeAll env source target (mountFlags readonly)
                (mountData readonly) fuel 0 .success tr' hloop target htail
        | mountErr e =>
          simp only [Option.some.injEq, Prod.mk.injEq] at h
          constructor
          · intro _; rw [← h.2]; simp
          · intro hok; rw [← h.1] at hok; exact absurd hok (by simp)
        | ctxDone =>
          simp only [Option.some.injEq, Prod.mk.injEq] at h
          constructor
          · intro _; rw [← h.2]; simp
          · intro hok; rw [← h.1] at hok; exact absurd hok (by simp)
  · intro b
    cases hmk : env.mkdirResult with
    | some e => simp [Mount, hmk]
    | none =>
      cases hres : env.resolveResult with
      | error e => simp [Mount, hmk, hres]
      | ok source =>
        simp only [Mount, hmk, hres]
        rw [mountLoop_only_mounts_ctx
          (⟨none, Except.ok source, env.mounts, env.ctxDoneAt, env.ctxErr, b⟩ : MountEnv)
          env rfl rfl source target (mountFlags readonly) (mountData readonly) fuel 0]

/-- C1 witness: with a pre-existing target directory, successful creation
and a failing resolution, the rollback removal is in the action list. -/
theorem mount_rollback_policy_witness :
    FsAction.removeAll "/mnt/t" ∈
      [FsAction.mkdirAll "/mnt/t" 0o700, FsAction.removeAll "/mnt/t"] :=
  ((mount_rollback_policy
      ⟨none, .error ⟨false, "resolve failed"⟩, fun _ => none, fun _ => false,
        ⟨false, "ctx"⟩, true⟩ 0 0 "/mnt/t" false 1).2.1 rfl
    (.resolveErr ⟨false, "resolve failed"⟩)
    [FsAction.mkdirAll "/mnt/t" 0o700, FsAction.removeAll "/mnt/t"] rfl).1 (by decide)

/-- C7: every mount call `Mount` issues carries the read-only flag
`MS_RDONLY` and option string "noload" when `readonly` is true, and zero
flags with an empty option string when `readonly` is false. -/
theorem mount_readonly_params (env : MountEnv) (controller lun : Nat) (target : String)
    (readonly : Bool) (fuel : Nat) (res : MountResult) (tr : List FsAction)
    (h : Mount env controller lun target readonly fuel = some (res, tr)) :
    ∀ s2 t2 fs2 f2 d2, FsAction.mountCall s2 t2 fs2 f2 d2 ∈ tr →
      (readonly = true → f2 = MS_RDONLY ∧ d2 = "noload") ∧
      (readonly = false → f2 = 0 ∧ d2 = "") := by
  intro s2 t2 fs2 f2 d2 hmem
  have hfd : f2 = mountFlags readonly ∧ d2 = mountData readonly := by
    cases hmk : env.mkdirResult with
    | some e =>
      simp only [Mount, hmk, Option.some.injEq, Prod.mk.injEq] at h
      rw [← h.2] at hmem
      simp at hmem
    | none =>
      simp only [Mount, hmk] at h
      cases hres : env.resolveResult with
      | error e =>
        simp only [hres] at h
        simp only [Option.some.injEq, Prod.mk.injEq] at h
        rw [← h.2] at hmem
        simp at hmem
      | ok source =>
        simp only [hres] at h
        cases hloop : mountLoop env source target (mountFlags readonly) (mountData readonly)
            0 fuel with
        | none => rw [hloop] at h; exact Option.noConfusion h
        | some r =>
          obtain ⟨ex, tr'⟩ := r
          rw [hloop] at h
          have hcall := mountLoop_calls env source target (mountFlags readonly)
            (mountData readonly) fuel 0 ex tr' hloop s2 t2 fs2 f2 d2
          cases ex with
          | success =>
            simp only [Option.some.injEq, Prod.mk.injEq] at h
            rw [← h.2] at hmem
            rcases List.mem_cons.mp hmem with hhead | htail
            · exact FsAction.noConfusion hhead
            · exact ⟨(hcall htail).2.2.2.1, (hcall htail).2.2.2.2⟩
          | mountErr e =>
            simp only [Option.some.injEq, Prod.mk.injEq] at h
            rw [← h.2] at hmem
            rcases List.mem_cons.mp hmem with hhead | htail
            · exact FsAction.noConfusion hhead
            · rcases List.mem_append.mp htail with hin | hlast
              · exact ⟨(hcall hin).2.2.2.1, (hcall hin).2.2.2.2⟩
              · simp at hlast
          | ctxDone =>
            simp only [Option.some.injEq, Prod.mk.injEq] at h
            rw [← h.2] at hmem
            rcases List.mem_cons.mp hmem with hhead | htail
            · exact FsAction.noConfusion hhead
            · rcases List.mem_append.mp htail with hin | hlast
              · exact ⟨(hcall hin).2.2.2.1, (hcall hin).2.2.2.2⟩
              · simp at hlast
  constructor
  · intro hro; rw [hro] at hfd; simpa [mountFlags, mountData] using hfd
  · intro hro; rw [hro] at hfd; simpa [mountFlags, mountData] using hfd

/-- C7 witness: a read-only mount issues flags `MS_RDONLY = 1` and data
"noload". -/
theorem mount_readonly_params_witness :
    1 = MS_RDONLY ∧ "noload" = "noload" :=
  (mount_readonly_params
      ⟨none, .ok "/dev/sda", fun _ => none, fun _ => false, ⟨false, "ctx"⟩, false⟩
      0 0 "/mnt/t" true 1 .ok
      [FsAction.mkdirAll "/mnt/t" 0o700,
        FsAction.mountCall "/dev/sda" "/mnt/t" "ext4" 1 "noload"] rfl
      "/dev/sda" "/mnt/t" "ext4" 1 "noload" (by decide)).1 rfl

/-- C6: the mount call always uses the fixed filesystem type "ext4"; an
ENOENT failure (device node not yet present) leads to a context check and,
unless the context is done, a 10 ms sleep and a retried mount at the next
attempt (for any attempt index, i.e. unboundedly except for the context);
if the context is done the loop stops after that attempt with no sleep and
the context's own error is returned (after rollback); any non-ENOENT mount
failure ends the loop after that single attempt and is returned (after
rollback). -/
theorem mount_retry_policy (env : MountEnv) (controller lun : Nat)
    (source target : String) (readonly : Bool) (i fuel : Nat) :
    (∀ res tr, Mount env controller lun target readonly fuel = some (res, tr) →
       ∀ s2 t2 fs2 f2 d2, FsAction.mountCall s2 t2 fs2 f2 d2 ∈ tr → fs2 = "ext4") ∧
    (env.mounts i = some .ENOENT → env.ctxDoneAt i = false →
       mountLoop env source target (mountFlags readonly) (mountData readonly) i (fuel + 1) =
         (mountLoop env source target (mountFlags readonly) (mountData readonly)
             (i + 1) fuel).map
           fun r => (r.1,
             FsAction.mountCall source target "ext4" (mountFlags readonly)
                 (mountData readonly) :: FsAction.sleep 10 :: r.2)) ∧
    (env.mounts i = some .ENOENT → env.ctxDoneAt i = true →
       mountLoop env source target (mountFlags readonly) (mountData readonly) i (fuel + 1) =
         some (.ctxDone,
           [FsAction.mountCall source target "ext4" (mountFlags readonly)
               (mountData readonly)])) ∧
    (∀ c, env.mounts i = some (.other c) →
       mountLoop env source target (mountFlags readonly) (mountData readonly) i (fuel + 1) =
         some (.mountErr (.other c),
           [FsAction.mountCall source target "ext4" (mountFlags readonly)
               (mountData readonly)])) ∧
    (env.mkdirResult = none → env.resolveResult = .ok source →
       ∀ e tr, mountLoop env source target (mountFlags readonly) (mountData readonly)
           0 fuel = some (.mountErr e, tr) →
         Mount env controller lun target readonly fuel =
           some (.mountErr e, .mkdirAll target 0o700 :: (tr ++ [.removeAll target]))) ∧
    (env.mkdirResult = none → env.resolveResult = .ok source →
       ∀ tr, mountLoop env source target (mountFlags readonly) (mountData readonly)
           0 fuel = some (.ctxDone, tr) →
         Mount env controller lun target readonly fuel =
           some (.ctxErr env.ctxErr, .mkdirAll target 0o700 :: (tr ++ [.removeAll target]))) := by
  refine ⟨?_, ?_, ?_, ?_, ?_, ?_⟩
  · intro res tr h s2 t2 fs2 f2 d2 hmem
    cases hmk : env.mkdirResult with
    | some e =>
      simp only [Mount, hmk, Option.some.injEq, Prod.mk.injEq] at h
      rw [← h.2] at hmem
      simp at hmem
    | none =>
      simp only [Mount, hmk] at h
      cases hres : env.resolveResult with
      | error e =>
        simp only [hres] at h
        simp only [Option.some.injEq, Prod.mk.injEq] at h
        rw [← h.2] at hmem
        simp at hmem
      | ok src =>
        simp only [hres] at h
        cases hloop : mountLoop env src target (mountFlags readonly) (mountData readonly)
            0 fuel with
        | none => rw [hloop] at h; exact Option.noConfusion h
        | some r =>
          obtain ⟨ex, tr'⟩ := r
          rw [hloop] at h
          have hcall := mountLoop_calls env src target (mountFlags readonly)
            (mountData readonly) fuel 0 ex tr' hloop s2 t2 fs2 f2 d2
          cases ex with
          | success =>
            simp only [Option.some.injEq, Prod.mk.injEq] at h
            rw [← h.2] at hmem
            rcases List.mem_cons.mp hmem with hhead | htail
            · exact FsAction.noConfusion hhead
            · exact (hcall htail).2.2.1
          | mountErr e =>
            simp only [Option.some.injEq, Prod.mk.injEq] at h
            rw [← h.2] at hmem
            rcases List.mem_cons.mp hmem with hhead | htail
            · exact FsAction.noConfusion hhead
            · rcases List.mem_append.mp htail with hin | hlast
              · exact (hcall hin).2.2.1
              · simp at hlast
          | ctxDone =>
            simp only [Option.some.injEq, Prod.mk.injEq] at h
            rw [← h.2] at hmem
            rcases List.mem_cons.mp hmem with hhead | htail
            · exact FsAction.noConfusion hhead
            · rcases List.mem_append.mp htail with hin | hlast
              · exact (hcall hin).2.2.1
              · simp at hlast
  · intro hm hd
    simp [mountLoop, hm, hd]
  · intro hm hd
    simp [mountLoop, hm, hd]
  · intro c hm
    simp [mountLoop, hm]
  · intro hmk hres e tr hloop
    simp [Mount, hmk, hres, hloop]
  · intro hmk hres tr hloop
    simp [Mount, hmk, hres, hloop]

/-- C6 witness: a non-ENOENT mount failure is returned after the single
attempt, with the rollback removal appended. -/
theorem mount_retry_policy_witness :
    Mount ⟨none, .ok "/dev/sda", fun _ => some (.other 13), fun _ => false,
        ⟨false, "ctx"⟩, false⟩ 0 0 "/mnt/t" false 1 =
      some (.mountErr (.other 13),
        [FsAction.mkdirAll "/mnt/t" 0o700,
          FsAction.mountCall "/dev/sda" "/mnt/t" "ext4" 0 "",
          FsAction.removeAll "/mnt/t"]) :=
  ((mount_retry_policy
      ⟨none, .ok "/dev/sda", fun _ => some (.other 13), fun _ => false,
        ⟨false, "ctx"⟩, false⟩ 0 0 "/dev/sda" "/mnt/t" false 0 1).2.2.2.2.1 rfl rfl
    (.other 13) [FsAction.mountCall "/dev/sda" "/mnt/t" "ext4" 0 ""] rfl)

/-! ## Claim theorems: UnplugManager -/

/-- C10: `UnplugDevice` never consults its context argument: any two
contexts, including an already-canceled one, yield the same opens, writes
and result, so a canceled context never makes it return the context's
error. -/
theorem unplug_ignores_context (ctx1 ctx2 : Context) (env : UnplugEnv)
    (controller lun : Nat) :
    UnplugDevice ctx1 env controller lun = UnplugDevice ctx2 env controller lun := rfl

/-- C8: if the removal-control file does not exist, `UnplugDevice` returns
no error and performs no write; invoking it any number of times in
succession therefore returns no error each time. -/
theorem unplug_absent_noop (ctx : Context) (env : UnplugEnv) (controller lun : Nat)
    (e : GoError) (hopen : env.openDelete = .error e) (hne : e.isNotExist = true) :
    (UnplugDevice ctx env controller lun).1 = .ok ∧
    (∀ p, UnplugAction.write p ∉ (UnplugDevice ctx env controller lun).2) ∧
    (∀ n, ∀ r ∈ List.replicate n (UnplugDevice ctx env controller lun), r.1 = .ok) := by
  have hdev : UnplugDevice ctx env controller lun =
      (.ok, [.openFile ("/sys/bus/scsi/devices/" ++ scsiIDString controller lun ++
        "/delete")]) := by
    simp [UnplugDevice, hopen, hne]
  refine ⟨by rw [hdev], ?_, ?_⟩
  · intro p
    rw [hdev]
    simp
  · intro n r hr
    rw [List.eq_of_mem_replicate hr, hdev]

/-- C8 witness. -/
theorem unplug_absent_noop_witness :
    (UnplugDevice ⟨false, ⟨false, "ctx"⟩⟩ ⟨.error ⟨true, "no such file"⟩, none, none⟩
      3 5).1 = .ok :=
  (unplug_absent_noop ⟨false, ⟨false, "ctx"⟩⟩ ⟨.error ⟨true, "no such file"⟩, none, none⟩
    3 5 ⟨true, "no such file"⟩ rfl rfl).1

/-- C4 counterexample: with the control file present, the trigger write
performed and succeeding, but the subsequent diagnostic write to /dev/kmsg
failing, `UnplugDevice` does not return no error (it returns the kmsg
write's error), contradicting "if that write succeeds, UnplugDevice
returns no error". -/
theorem unplug_write_success_not_ok :
    UnplugAction.write "1\n" ∈
      (UnplugDevice ⟨false, ⟨false, "ctx"⟩⟩
        ⟨.ok (), none, some ⟨false, "kmsg write failed"⟩⟩ 0 0).2 ∧
    (UnplugDevice ⟨false, ⟨false, "ctx"⟩⟩
        ⟨.ok (), none, some ⟨false, "kmsg write failed"⟩⟩ 0 0).1 =
      .kmsgErr ⟨false, "kmsg write failed"⟩ ∧
    (UnplugDevice ⟨false, ⟨false, "ctx"⟩⟩
        ⟨.ok (), none, some ⟨false, "kmsg write failed"⟩⟩ 0 0).1 ≠ .ok := by
  refine ⟨?_, rfl, by decide⟩
  simp [UnplugDevice]

/-- C4 amended: if the removal-control file exists, `UnplugDevice` opens it
and writes the trigger payload exactly once (no retry); a failing trigger
write has its error returned unmodified; if the trigger write succeeds,
`UnplugDevice` additionally writes a timing message to /dev/kmsg and
returns no error exactly when that write also succeeds, otherwise that
write's error. -/
theorem unplug_write_behavior (ctx : Context) (env : UnplugEnv) (controller lun : Nat)
    (hopen : env.openDelete = .ok ()) :
    UnplugAction.write "1\n" ∈ (UnplugDevice ctx env controller lun).2 ∧
    (UnplugDevice ctx env controller lun).2.countP isWriteAction = 1 ∧
    (∀ e, env.writeDelete = some e →
       (UnplugDevice ctx env controller lun).1 = .writeErr e) ∧
    (env.writeDelete = none →
       (env.writeKmsg = none → (UnplugDevice ctx env controller lun).1 = .ok) ∧
       (∀ e, env.writeKmsg = some e →
          (UnplugDevice ctx env controller lun).1 = .kmsgErr e)) := by
  cases hw : env.writeDelete with
  | some e =>
    have hdev : UnplugDevice ctx env controller lun =
        (.writeErr e,
          [.openFile ("/sys/bus/scsi/devices/" ++ scsiIDString controller lun ++
            "/delete"), .write "1\n"]) := by
      simp [UnplugDevice, hopen, hw]
    refine ⟨by rw [hdev]; simp, by rw [hdev]; simp [isWriteAction], ?_, ?_⟩
    · intro e2 he2
      cases he2
      rw [hdev]
    · intro hnone
      exact Option.noConfusion hnone
  | none =>
    cases hk : env.writeKmsg with
    | some e =>
      have hdev : UnplugDevice ctx env controller lun =
          (.kmsgErr e,
            [.openFile ("/sys/bus/scsi/devices/" ++ scsiIDString controller lun ++
              "/delete"), .write "1\n", .writeKmsgFile]) := by
        simp [UnplugDevice, hopen, hw, hk]
      refine ⟨by rw [hdev]; simp, by rw [hdev]; simp [isWriteAction], ?_, ?_⟩
      · intro e2 he2
        exact Option.noConfusion he2
      · intro _
        refine ⟨?_, ?_⟩
        · intro hknone
          exact Option.noConfusion hknone
        · intro e2 he2
          cases he2
          rw [hdev]
    | none =>
      have hdev : UnplugDevice ctx env controller lun =
          (.ok,
            [.openFile ("/sys/bus/scsi/devices/" ++ scsiIDString controller lun ++
              "/delete"), .write "1\n", .writeKmsgFile]) := by
        simp [UnplugDevice, hopen, hw, hk]
      refine ⟨by rw [hdev]; simp, by rw [hdev]; simp [isWriteAction], ?_, ?_⟩
      · intro e2 he2
        exact Option.noConfusion he2
      · intro _
        refine ⟨fun _ => by rw [hdev], ?_⟩
        intro e2 he2
        exact Option.noConfusion he2

/-- C4 amended witness: control file present, trigger write fails. -/
theorem unplug_write_behavior_witness :
    (UnplugDevice ⟨false, ⟨false, "ctx"⟩⟩ ⟨.ok (), some ⟨false, "write failed"⟩, none⟩
      0 0).1 = .writeErr ⟨false, "write failed"⟩ :=
  ((unplug_write_behavior ⟨false, ⟨false, "ctx"⟩⟩
      ⟨.ok (), some ⟨false, "write failed"⟩, none⟩ 0 0 rfl).2.2.1
    ⟨false, "write failed"⟩ rfl)

end Scsi
